import Mathlib

/-!
# Kannel `gwlib/socket.c`: a shallow embedding and its properties

The functions of `gwlib/socket.c` are translated into pure Lean functions.
System calls are replaced by explicit outcome parameters: a function that
loops over `read`/`write` takes the list of the outcomes of the successive
calls, and returns `none` when the list is exhausted while the C code would
still be calling (the call never returns), or when a system call stores bytes
outside the block of memory it was given.  Bytes are natural numbers, C
`int`/`long` values are integers with explicit wrap-around where a conversion
narrows them.
-/

namespace Kannel

/-! ## Constants of the platform (Linux, LP64) -/

/-- Value of `EINTR` in `<errno.h>`. -/
def EINTR : Int := 4

/-- Value of `EAGAIN` in `<errno.h>`. -/
def EAGAIN : Int := 11

/-- Value of `EBADF` in `<errno.h>`. -/
def EBADF : Int := 9

/-- Conversion of an integer value to a 32-bit two's complement `int`. -/
def toInt32 (x : Int) : Int := (x + 2147483648) % 4294967296 - 2147483648

/-- The byte `'\n'`. -/
def NL : Nat := 10

/-- The byte `'\r'`. -/
def CR : Nat := 13

/-! ## `read_line` -/

/-- Outcome of one `read(fd, line, 1)` call: one byte stored (return value 1),
end of stream (return value 0), or failure (return value -1) with `errno`. -/
inductive Read1 where
  | byte (b : Nat)
  | eof
  | fail (errno : Int)
  deriving DecidableEq

/-- One access to the memory around the caller's buffer; the index is relative
to the buffer's first byte. -/
inductive Access where
  | load (i : Int)
  | store (i : Int)
  deriving DecidableEq

/-- Index of an access. -/
def Access.index : Access → Int
  | .load i => i
  | .store i => i

/-- Memory with byte `b` stored at index `i`. -/
def storeByte (mem : Int → Nat) (i : Int) (b : Nat) : Int → Nat :=
  fun j => if j = i then b else mem j

/-- Local state of `read_line`: the memory (indexed relative to `start`), the
pointer `line` as an offset from `start`, the counter `max`, and the accesses
made so far. -/
structure LineState where
  mem : Int → Nat
  line : Int
  max : Int
  trace : List Access

/-- How the `while (max > 0)` loop of `read_line` ends: by `return -1`, or by
leaving the loop (`break` or `max` exhausted). -/
inductive LoopExit where
  | failed (st : LineState)
  | left (st : LineState)

/-- The `while (max > 0)` loop of `read_line`. -/
def read_line_loop : List Read1 → LineState → Option LoopExit
  | outs, st =>
    if st.max > 0 then
      match outs with
      | [] => none
      | Read1.fail e :: rest =>
        if e = EAGAIN then read_line_loop rest st
        else if e = EINTR then read_line_loop rest st
        else some (.failed st)
      | Read1.eof :: _ => some (.left st)
      | Read1.byte b :: rest =>
        let st1 : LineState :=
          { mem := storeByte st.mem st.line b
            line := st.line + 1
            max := st.max - 1
            trace := st.trace ++ [.store st.line, .load st.line] }
        if st1.mem (st1.line - 1) = NL then some (.left st1)
        else read_line_loop rest st1
    else some (.left st)

/-- Result of `read_line`: the return value, the memory and the accesses. -/
structure LineResult where
  ret : Int
  mem : Int → Nat
  trace : List Access

/-- The function `read_line(fd, line, max)`; index 0 of `mem` is `line[0]`. -/
def read_line (outs : List Read1) (mem : Int → Nat) (max : Int) : Option LineResult :=
  match read_line_loop outs { mem := mem, line := 0, max := max, trace := [] } with
  | none => none
  | some (.failed st) => some { ret := -1, mem := st.mem, trace := st.trace }
  | some (.left st) =>
    if st.line = 0 then some { ret := 0, mem := st.mem, trace := st.trace }
    else
      let line1 := if st.mem (st.line - 1) = NL then st.line - 1 else st.line
      let line2 := if st.mem (line1 - 1) = CR then line1 - 1 else line1
      some { ret := 1
             mem := storeByte st.mem line2 0
             trace := st.trace ++ [.load (st.line - 1), .load (line1 - 1), .store line2] }

/-- The C string held by the buffer: the bytes from index `i` up to the first
NUL, looking at no more than `fuel` bytes. -/
def cstr (mem : Int → Nat) (i : Int) : Nat → List Nat
  | 0 => []
  | fuel + 1 => if mem i = 0 then [] else mem i :: cstr mem (i + 1) fuel

/-- The text `s` without its trailing `'\r'`, if it ends in one. -/
def stripCR (s : List Nat) : List Nat :=
  if s.getLast? = some CR then s.dropLast else s

/-- The bytes delivered by a sequence of `read` outcomes. -/
def delivered : List Read1 → List Nat
  | [] => []
  | Read1.byte b :: rest => b :: delivered rest
  | _ :: rest => delivered rest

/-- Every failure in the sequence is `EINTR` or `EAGAIN` and no outcome is an
end of stream. -/
def transientOnly : List Read1 → Prop
  | [] => True
  | Read1.byte _ :: rest => transientOnly rest
  | Read1.eof :: _ => False
  | Read1.fail e :: rest => (e = EINTR ∨ e = EAGAIN) ∧ transientOnly rest

/-! ## `write_to_socket` -/

/-- Outcome of one `write` call: the descriptor takes `n` bytes, or the call
fails (return value -1) with `errno`. -/
inductive WriteOutcome where
  | accept (n : Nat)
  | fail (errno : Int)
  deriving DecidableEq

/-- Largest number of bytes one `write` call transfers on Linux (`write(2)`:
"will transfer at most 0x7ffff000 bytes"). -/
def MAX_RW_COUNT : Nat := 0x7ffff000

/-- Number of bytes that `write(fd, buf, count)` transfers when the descriptor
takes `n`: never more than `count`, nor than `MAX_RW_COUNT`. -/
def sys_write_count (n count : Nat) : Nat := min n (min count MAX_RW_COUNT)

/-- The function `strlen`: the number of bytes before the first NUL. -/
def strlen : List Nat → Nat
  | [] => 0
  | b :: rest => if b = 0 then 0 else strlen rest + 1

/-- Result of `write_to_socket`: the return value, the byte ranges taken by
the successful `write` calls in call order, and the number of `write` calls. -/
structure WriteResult where
  ret : Int
  accepted : List (List Nat)
  calls : Nat
  deriving DecidableEq

/-- The `while (len > 0)` loop of `write_to_socket`.  `str` is the memory from
the current value of the pointer `str` on, `len` the `size_t` counter (a
number of bytes held in memory, so a natural number), `errno` the thread's
`errno`; `ret` is the `ssize_t` result converted to `int`. -/
def write_loop : List WriteOutcome → List Nat → Nat → Int → List (List Nat) → Nat →
    Option WriteResult
  | outs, str, len, errno, acc, calls =>
    if len > 0 then
      match outs with
      | [] => none
      | WriteOutcome.fail e :: rest =>
        -- ret == -1, errno = e
        if e = EAGAIN then write_loop rest str len e acc (calls + 1)
        else if e = EINTR then write_loop rest str len e acc (calls + 1)
        else some { ret := -1, accepted := acc, calls := calls + 1 }
      | WriteOutcome.accept n :: rest =>
        let ret : Int := toInt32 (sys_write_count n len)
        let acc1 := acc ++ [str.take (sys_write_count n len)]
        if ret = -1 then
          if errno = EAGAIN then write_loop rest str len errno acc1 (calls + 1)
          else if errno = EINTR then write_loop rest str len errno acc1 (calls + 1)
          else some { ret := -1, accepted := acc1, calls := calls + 1 }
        else
          write_loop rest (str.drop ret.toNat) ((len : Int) - ret).toNat errno acc1 (calls + 1)
    else some { ret := 0, accepted := acc, calls := calls }

/-- The function `write_to_socket(socket, str)`; `str` is the memory from the
pointer on (the string, its NUL, and what follows), `errno` the value of
`errno` on entry. -/
def write_to_socket (outs : List WriteOutcome) (str : List Nat) (errno : Int) :
    Option WriteResult :=
  write_loop outs str (strlen str) errno [] 0

/-- The hypothesis on the `write` outcomes: each successful write takes
between 1 and the number of bytes still outstanding, each failure is `EINTR`
or `EAGAIN`, and the sequence ends with the write that takes the last byte. -/
def writesComplete : List WriteOutcome → Nat → Prop
  | [], len => len = 0
  | WriteOutcome.accept n :: rest, len =>
    1 ≤ n ∧ n ≤ len ∧ writesComplete rest (len - sys_write_count n len)
  | WriteOutcome.fail e :: rest, len =>
    0 < len ∧ (e = EINTR ∨ e = EAGAIN) ∧ writesComplete rest len

/-- The hypothesis on a sequence of `write` outcomes that precedes a fatal
failure: as `writesComplete`, but bytes are still outstanding at the end. -/
def writesPartial : List WriteOutcome → Nat → Prop
  | [], len => 0 < len
  | WriteOutcome.accept n :: rest, len =>
    1 ≤ n ∧ n ≤ len ∧ writesPartial rest (len - sys_write_count n len)
  | WriteOutcome.fail e :: rest, len =>
    (e = EINTR ∨ e = EAGAIN) ∧ writesPartial rest len

/-! ## `read_to_eof` -/

/-- Outcome of one `read` call: the bytes stored (return value their number,
0 at end of file), or failure (return value -1) with `errno`. -/
inductive ReadOutcome where
  | data (bytes : List Nat)
  | fail (errno : Int)
  deriving DecidableEq

/-- One `read(fd, *data + *len, size - *len)` request: the offset in the
buffer, the number of bytes requested, and the number of bytes of the block
that `*data` points to when the call is made. -/
structure ReadRequest where
  offset : Nat
  count : Nat
  allocated : Nat
  deriving DecidableEq

/-- A `read` request asks for a positive number of bytes and stays inside the
block allocated. -/
def ReadRequest.valid (q : ReadRequest) : Prop :=
  0 < q.count ∧ q.offset + q.count ≤ q.allocated

/-- Modelled from the spec: `gw_realloc` (the allocator of gwlib) is not among
the sources.  `gw_realloc(ptr, size)` is the block grown to `size` bytes;
`junk i` is the (unspecified) content of the new byte at index `i`.  The
allocator aborts the process when memory is exhausted, so a run that goes on
holds a block smaller than the address space: sizes are natural numbers. -/
def gw_realloc (junk : Nat → Nat) (data : List Nat) (size : Nat) : List Nat :=
  (data ++ (List.range' data.length (size - data.length)).map junk).take size

/-- The block after `bytes` are stored at `offset`: `none` when they do not
lie inside the block, which keeps its size otherwise. -/
def storeAt (data : List Nat) (offset : Nat) (bytes : List Nat) : Option (List Nat) :=
  if offset + bytes.length ≤ data.length then
    some (data.take offset ++ bytes ++ data.drop (offset + bytes.length))
  else none

/-- The call `read(fd, data + offset, count)` for one outcome: the return value
converted to `int`, `errno` and the block afterwards; `none` when the bytes
that the call stores do not lie inside the block. -/
def sys_read (o : ReadOutcome) (data : List Nat) (offset : Nat) (errno : Int) :
    Option (Int × Int × List Nat) :=
  match o with
  | ReadOutcome.data bytes =>
    match storeAt data offset bytes with
    | none => none
    | some data2 => some (toInt32 bytes.length, errno, data2)
  | ReadOutcome.fail e => some (-1, e, data)

/-- Result of `read_to_eof`: the return value, `*data` (`none` for `NULL`),
`*len`, and the `read` requests made. -/
structure EofResult where
  ret : Int
  data : Option (List Nat)
  len : Nat
  requests : List ReadRequest
  deriving DecidableEq

/-- The statement `if (*len == size) { size += 16 * 1024; ... }` of
`read_to_eof`: the buffer and `size` afterwards. -/
def read_to_eof_grow (junk : Nat → Nat) (data : List Nat) (len size : Nat) : List Nat × Nat :=
  if len = size then (gw_realloc junk data (size + 16 * 1024), size + 16 * 1024)
  else (data, size)

/-- The `for (;;)` loop of `read_to_eof`; `data` is the block that `*data`
points to (empty for `NULL`), `size` the local counter. -/
def read_to_eof_loop (junk : Nat → Nat) :
    List ReadOutcome → List Nat → Nat → Nat → Int → List ReadRequest → Option EofResult
  | outs, data, len, size, errno, reqs =>
    let data1 := (read_to_eof_grow junk data len size).1
    let size1 := (read_to_eof_grow junk data len size).2
    match outs with
    | [] => none
    | o :: rest =>
      let reqs1 := reqs ++ [{ offset := len, count := size1 - len, allocated := data1.length }]
      match sys_read o data1 len errno with
      | none => none
      | some (ret, errno1, data2) =>
        if ret = -1 then
          if errno1 = EINTR then read_to_eof_loop junk rest data2 len size1 errno1 reqs1
          else if errno1 = EAGAIN then read_to_eof_loop junk rest data2 len size1 errno1 reqs1
          else some { ret := -1, data := none, len := len, requests := reqs1 }
        else if ret = 0 then
          some { ret := 0, data := some data2, len := len, requests := reqs1 }
        else read_to_eof_loop junk rest data2 ((len : Int) + ret).toNat size1 errno1 reqs1

/-- The function `read_to_eof(fd, data, len)`. -/
def read_to_eof (junk : Nat → Nat) (outs : List ReadOutcome) (errno : Int) : Option EofResult :=
  read_to_eof_loop junk outs [] 0 0 errno []

/-- The bytes of the successful reads of a sequence, in order. -/
def chunksOf : List ReadOutcome → List Nat
  | [] => []
  | ReadOutcome.data bytes :: rest => bytes ++ chunksOf rest
  | ReadOutcome.fail _ :: rest => chunksOf rest

/-- The sum of the sizes of the successful reads of a sequence. -/
def chunkSizes : List ReadOutcome → Nat
  | [] => 0
  | ReadOutcome.data bytes :: rest => bytes.length + chunkSizes rest
  | ReadOutcome.fail _ :: rest => chunkSizes rest

/-- The hypothesis on the `read` outcomes before the end of file, `len` bytes
having been read so far: each successful read returns between 1 and the
requested number of bytes, which is what is left of the current 16 KiB
increment, and each failure is `EINTR` or `EAGAIN`. -/
def readsFit : List ReadOutcome → Nat → Prop
  | [], _ => True
  | ReadOutcome.data bytes :: rest, len =>
    1 ≤ bytes.length ∧ bytes.length ≤ 16384 - len % 16384 ∧
      readsFit rest (len + bytes.length)
  | ReadOutcome.fail e :: rest, len => (e = EINTR ∨ e = EAGAIN) ∧ readsFit rest len

/-! ## `socket_query_blocking` and `socket_set_blocking` -/

/-- Value of `O_NONBLOCK` in `<fcntl.h>` (octal 04000). -/
def O_NONBLOCK : Int := 2048

/-- The bit pattern of an `int`: 32 bits, two's complement. -/
def bits32 (x : Int) : Nat := (x % 4294967296).toNat

/-- The operator `&` on `int`. -/
def int_and (a b : Int) : Int := toInt32 (bits32 a &&& bits32 b : Nat)

/-- The operator `|` on `int`. -/
def int_or (a b : Int) : Int := toInt32 (bits32 a ||| bits32 b : Nat)

/-- The operator `~` on `int`. -/
def int_not (a : Int) : Int := toInt32 (4294967295 - bits32 a : Nat)

/-- The call `fcntl(fd, F_GETFL)`: the flag word of the descriptor when the
call succeeds, -1 when it fails. -/
def fcntl_getfl (ok : Bool) (fdflags : Int) : Int :=
  if ok then fdflags else -1

/-- The function `socket_query_blocking(fd)`; `fdflags` is the flag word of
the descriptor and `getfl_ok` tells whether `fcntl` succeeds. -/
def socket_query_blocking (getfl_ok : Bool) (fdflags : Int) : Int :=
  let flags := fcntl_getfl getfl_ok fdflags
  if flags < 0 then -1
  else if int_and flags O_NONBLOCK ≠ 0 then 1 else 0

/-- The function `socket_set_blocking(fd, blocking)`: the return value and the
flag word of the descriptor afterwards. -/
def socket_set_blocking (getfl_ok setfl_ok : Bool) (fdflags : Int) (blocking : Int) :
    Int × Int :=
  let flags := fcntl_getfl getfl_ok fdflags
  if flags < 0 then (-1, fdflags)
  else
    let newflags :=
      if blocking ≠ 0 then int_and flags (int_not O_NONBLOCK)
      else int_or flags O_NONBLOCK
    if newflags ≠ flags then
      if setfl_ok then (0, newflags) else (-1, fdflags)
    else (0, fdflags)

/-! ## The socket factories -/

/-- An IPv4 address as it lies in memory: four bytes in network order. -/
structure in_addr where
  b0 : Nat
  b1 : Nat
  b2 : Nat
  b3 : Nat
  deriving DecidableEq

/-- The fields of `struct hostent` that `socket.c` reads: the official name
`h_name` and the first address `h_addr` (`h_addr_list[0]`). -/
structure hostent where
  h_name : String
  h_addr : in_addr
  deriving DecidableEq

/-- The name resolver `gw_gethostbyname`: the entry of the host whose name is
the given C string, or `none` when the call returns -1. -/
abbrev Resolver := String → Option hostent

/-- The call `socket(...)`: `some fd` opens the descriptor `fd` and returns
it, `none` fails and returns -1.  The second component is the list of the open
descriptors. -/
def sys_socket (out : Option Nat) (opened : List Int) : Int × List Int :=
  match out with
  | some fd => ((fd : Int), (fd : Int) :: opened)
  | none => (-1, opened)

/-- The call `close(s)`. -/
def sys_close (s : Int) (opened : List Int) : List Int :=
  opened.erase s

/-- The `error:` label of `make_server_socket`. -/
def make_server_socket_error (s : Int) (opened : List Int) : Int × List Int :=
  if s ≥ 0 then (-1, sys_close s opened) else (-1, opened)

/-- The function `make_server_socket(port)`: the return value and the open
descriptors afterwards, given the outcomes of `socket`, `setsockopt`, `bind`
and `listen`. -/
def make_server_socket (sock : Option Nat) (setsockopt_ok bind_ok listen_ok : Bool)
    (opened : List Int) : Int × List Int :=
  let (s, opened1) := sys_socket sock opened
  if s = -1 then make_server_socket_error s opened1
  else if ¬ setsockopt_ok then make_server_socket_error s opened1
  else if ¬ bind_ok then make_server_socket_error s opened1
  else if ¬ listen_ok then make_server_socket_error s opened1
  else (s, opened1)

/-- The `error:` label of `tcpip_connect_to_server_with_port`. -/
def tcpip_connect_error (s : Int) (opened : List Int) : Int × List Int :=
  if s ≥ 0 then (-1, sys_close s opened) else (-1, opened)

/-- The function `tcpip_connect_to_server_with_port(hostname, port, our_port)`. -/
def tcpip_connect_to_server_with_port (sock : Option Nat) (resolve : Resolver)
    (setsockopt_ok bind_ok connect_ok : Bool) (hostname : String) (our_port : Int)
    (opened : List Int) : Int × List Int :=
  let (s, opened1) := sys_socket sock opened
  if s = -1 then tcpip_connect_error s opened1
  else
    match resolve hostname with
    | none => tcpip_connect_error s opened1
    | some _ =>
      if our_port > 0 ∧ ¬ setsockopt_ok then tcpip_connect_error s opened1
      else if our_port > 0 ∧ ¬ bind_ok then tcpip_connect_error s opened1
      else if ¬ connect_ok then tcpip_connect_error s opened1
      else (s, opened1)

/-- The function `tcpip_connect_to_server(hostname, port)`. -/
def tcpip_connect_to_server (sock : Option Nat) (resolve : Resolver)
    (setsockopt_ok bind_ok connect_ok : Bool) (hostname : String)
    (opened : List Int) : Int × List Int :=
  tcpip_connect_to_server_with_port sock resolve setsockopt_ok bind_ok connect_ok hostname 0
    opened

/-- The function `udp_client_socket()`. -/
def udp_client_socket (sock : Option Nat) (opened : List Int) : Int × List Int :=
  let (s, opened1) := sys_socket sock opened
  if s = -1 then (-1, opened1) else (s, opened1)

/-- The function `udp_bind(port, interface_name)`. -/
def udp_bind (sock : Option Nat) (resolve : Resolver) (bind_ok : Bool)
    (interface_name : String) (opened : List Int) : Int × List Int :=
  let (s, opened1) := sys_socket sock opened
  if s = -1 then (-1, opened1)
  else if interface_name = "*" then
    if ¬ bind_ok then (-1, sys_close s opened1) else (s, opened1)
  else
    match resolve interface_name with
    | none => (-1, opened1)
    | some _ =>
      if ¬ bind_ok then (-1, sys_close s opened1) else (s, opened1)

/-! ## `read_available` -/

/-- The function `div` of `<stdlib.h>`: its parameters are of type `int`, the
quotient is truncated towards zero. -/
def c_div (numer denom : Int) : Int × Int :=
  (Int.tdiv (toInt32 numer) (toInt32 denom), Int.tmod (toInt32 numer) (toInt32 denom))

/-- A `struct timeval`: `tv_sec` and `tv_usec`. -/
structure timeval where
  tv_sec : Int
  tv_usec : Int
  deriving DecidableEq

/-- Outcome of one `select` call: the return value, whether `fd` is in the set
afterwards, `errno`, and the timeout as the kernel leaves it. -/
structure SelectOutcome where
  ret : Int
  isset : Bool
  errno : Int
  left : timeval
  deriving DecidableEq

/-- Result of `read_available`: the return value and the timeouts handed to
the successive `select` calls. -/
structure AvailResult where
  ret : Int
  timeouts : List timeval
  deriving DecidableEq

/-- The part of `read_available` from the label `retry:` on. -/
def read_available_retry : List SelectOutcome → timeval → List timeval → Option AvailResult
  | [], _, _ => none
  | o :: rest, tv, seen =>
    let seen1 := seen ++ [tv]
    if o.ret > 0 ∧ o.isset then some { ret := 1, timeouts := seen1 }
    else if o.ret < 0 then
      if o.errno = EINTR then read_available_retry rest o.left seen1
      else if o.errno = EAGAIN then some { ret := 1, timeouts := seen1 }
      else some { ret := -1, timeouts := seen1 }
    else some { ret := 0, timeouts := seen1 }

/-- The function `read_available(fd, wait_usec)` for a descriptor `fd >= 0`;
`wait_usec` is a `long`. -/
def read_available (outs : List SelectOutcome) (wait_usec : Int) : Option AvailResult :=
  let waits := c_div wait_usec 1000000
  read_available_retry outs { tv_sec := waits.1, tv_usec := waits.2 } []

/-! ## Text formatting -/

/-- The conversion `%d` of an `int` argument: a minus sign for a negative
value, then the decimal digits. -/
def fmt_d (v : Int) : List Char :=
  if v < 0 then '-' :: Nat.toDigits 10 v.natAbs else Nat.toDigits 10 v.toNat

/-- The conversion `%x` of an `int` argument: the hexadecimal digits, in lower
case, of the value as an `unsigned int`. -/
def fmt_x (v : Int) : List Char :=
  Nat.toDigits 16 (v % 4294967296).toNat

/-- Modelled from the spec: `octstr_format` (gwlib/octstr.c) is not among the
sources; it is the octet-string container's `printf`.  The conversions that
`socket.c` uses are `%d` and `%x`, each consuming one `int` argument; any other
character is copied. -/
def octstr_format : List Char → List Int → List Char
  | [], _ => []
  | [c], _ => [c]
  | c :: k :: rest, [] => c :: octstr_format (k :: rest) []
  | c :: k :: rest, a :: args =>
    if c = '%' ∧ k = 'd' then fmt_d a ++ octstr_format rest args
    else if c = '%' ∧ k = 'x' then fmt_x a ++ octstr_format rest args
    else c :: octstr_format (k :: rest) (a :: args)

/-- The function `inet_ntoa`: the four bytes of the address in decimal,
separated by dots. -/
def inet_ntoa (a : in_addr) : List Char :=
  fmt_d a.b0 ++ '.' :: fmt_d a.b1 ++ '.' :: fmt_d a.b2 ++ '.' :: fmt_d a.b3

/-- The element `src[i]` of an array of `unsigned char`. -/
def byteAt (src : List Nat) (i : Nat) : Int := (src.getD i 0 : Nat)

/-- Value of `AF_INET` in `<sys/socket.h>`. -/
def AF_INET : Int := 2

/-- Value of `AF_INET6` in `<sys/socket.h>`. -/
def AF_INET6 : Int := 10

/-- The function `gw_netaddr_to_octstr4(src)`. -/
def gw_netaddr_to_octstr4 (src : List Nat) : List Char :=
  octstr_format "%d.%d.%d.%d".toList [byteAt src 0, byteAt src 1, byteAt src 2, byteAt src 3]

/-- The function `gw_netaddr_to_octstr6(src)`. -/
def gw_netaddr_to_octstr6 (src : List Nat) : List Char :=
  octstr_format "%x:%x:%x:%x:%x:%x:%x:%x:%x:%x:%x:%x:%x:%x:%x:%x".toList
    [byteAt src 0, byteAt src 1, byteAt src 2, byteAt src 3, byteAt src 4, byteAt src 5,
     byteAt src 6, byteAt src 7, byteAt src 8, byteAt src 9, byteAt src 10, byteAt src 11,
     byteAt src 12, byteAt src 13, byteAt src 14, byteAt src 15]

/-- The function `gw_netaddr_to_octstr(af, src)`; `none` is `NULL`. -/
def gw_netaddr_to_octstr (af : Int) (src : List Nat) : Option (List Char) :=
  if af = AF_INET then some (gw_netaddr_to_octstr4 src)
  else if af = AF_INET6 then some (gw_netaddr_to_octstr6 src)
  else none

/-- The value of a decimal numeral, most significant digit first. -/
def numeralValue (digits : List Char) : Nat :=
  digits.foldl (fun acc c => 10 * acc + (c.toNat - '0'.toNat)) 0

/-- A decimal numeral without sign and without leading zeros. -/
def plainNumeral (digits : List Char) : Bool :=
  digits.all Char.isDigit && (digits != []) && (digits.head? != some '0' || digits.length == 1)

/-- The texts joined by dots. -/
def joinDots : List (List Char) → List Char
  | [] => []
  | [t] => t
  | t :: rest => t ++ '.' :: joinDots rest

/-- The character NUL. -/
def NUL : Char := Char.ofNat 0

/-- The C string that starts at the pointer `octstr_get_cstr(ostr)`: the
characters of the octet string before its first NUL.  It is what `strcmp` and
`gw_gethostbyname` read when they are handed that pointer. -/
def c_str (ostr : String) : String :=
  String.mk (ostr.toList.takeWhile fun c => c != NUL)

/-- The ways the process is stopped: a failed `gw_assert`, or `panic`. -/
inductive Fatal where
  | assertion
  | panic
  deriving DecidableEq

/-- The static variables `official_name` and `official_ip`; `none` is `NULL`. -/
structure Identity where
  official_name : Option (List Char)
  official_ip : Option (List Char)
  deriving DecidableEq

/-- The values of the static variables when the program starts. -/
def Identity.initial : Identity := { official_name := none, official_ip := none }

/-- What `setup_official_name` gets from the system: the node name of `uname`
(`none` when `uname` fails) and the name resolver. -/
structure HostEnv where
  nodename : Option String
  resolve : Resolver

/-- The function `get_official_name()`. -/
def get_official_name (st : Identity) : Except Fatal (List Char) :=
  match st.official_name with
  | none => .error .assertion
  | some name => .ok name

/-- The function `get_official_ip()`. -/
def get_official_ip (st : Identity) : Except Fatal (List Char) :=
  match st.official_ip with
  | none => .error .assertion
  | some ip => .ok ip

/-- The function `setup_official_name()`. -/
def setup_official_name (env : HostEnv) (st : Identity) : Except Fatal Identity :=
  if st.official_name ≠ none then .error .assertion
  else
    match env.nodename with
    | none => .error .panic
    | some nodename =>
      match env.resolve nodename with
      | none =>
        .ok { official_name := some nodename.toList, official_ip := some "127.0.0.1".toList }
      | some h =>
        .ok { official_name := some h.h_name.toList, official_ip := some (inet_ntoa h.h_addr) }

/-- The function `socket_init()`. -/
def socket_init (env : HostEnv) (st : Identity) : Except Fatal Identity :=
  setup_official_name env st

/-- The function `socket_shutdown()`. -/
def socket_shutdown (st : Identity) : Identity :=
  { st with official_name := none }

/-- A call to one of the four functions of the host identity. -/
inductive Call where
  | init (env : HostEnv)
  | shutdown
  | name
  | ip

/-- The effect of one call on the static variables, or the way it stops the
process. -/
def Call.step (st : Identity) : Call → Except Fatal Identity
  | .init env => socket_init env st
  | .shutdown => .ok (socket_shutdown st)
  | .name => (get_official_name st).map fun _ => st
  | .ip => (get_official_ip st).map fun _ => st

/-- The static variables after a sequence of calls, when none of them stops
the process. -/
def runCalls : Identity → List Call → Except Fatal Identity
  | st, [] => .ok st
  | st, c :: rest =>
    match c.step st with
    | .error f => .error f
    | .ok st1 => runCalls st1 rest

/-- The most recent lifecycle call of a sequence: `some true` for
`socket_init`, `some false` for `socket_shutdown`, `none` when there is none. -/
def lastLifecycle : List Call → Option Bool
  | [] => none
  | c :: rest =>
    match lastLifecycle rest with
    | some b => some b
    | none =>
      match c with
      | .init _ => some true
      | .shutdown => some false
      | _ => none


/-- Whether the call is `socket_init`. -/
def Call.isInit : Call → Bool
  | .init _ => true
  | _ => false

/-! ## Properties -/

set_option maxRecDepth 100000 in
/-- The decimal digits of a byte form a numeral without sign or leading zero
whose value is the byte. -/
theorem toDigits_byte : ∀ a < 256,
    plainNumeral (Nat.toDigits 10 a) = true ∧ numeralValue (Nat.toDigits 10 a) = a := by
  decide

/-- The conversion `%d` of a byte gives its decimal digits. -/
theorem fmt_d_byte (a : Nat) : fmt_d (a : Int) = Nat.toDigits 10 a := by
  simp [fmt_d]

/-- C10: `read_line` leaves the caller's buffer.  With `max = 1` and a stream
that delivers the single byte `'A'`, the terminating NUL is stored at index 1,
which is `max`; and with a stream that delivers a lone `'\n'`, the look-back
for `'\r'` loads index -1. -/
theorem read_line_leaves_buffer :
    (∃ r, read_line [Read1.byte 65] (fun _ => 0) 1 = some r ∧ r.ret = 1 ∧
      r.trace = [.store 0, .load 0, .load 0, .load 0, .store 1] ∧
      ¬ (∀ a ∈ r.trace, 0 ≤ a.index ∧ a.index < 1)) ∧
    (∃ r, read_line [Read1.byte NL] (fun _ => 0) 80 = some r ∧ r.ret = 1 ∧
      r.trace = [.store 0, .load 0, .load 0, .load (-1), .store 0] ∧
      ¬ (∀ a ∈ r.trace, 0 ≤ a.index ∧ a.index < 80)) := by
  refine ⟨⟨_, rfl, by decide, by decide, by decide⟩, ?_⟩
  exact ⟨_, rfl, by decide, by decide, by decide⟩

/-- C1: on the stream `"\n"` (the empty line `s`), with the byte `'\r'` lying
just before the buffer, `read_line` returns 1 but the buffer does not hold the
empty string: its first byte is still `'\n'`, and the NUL has been stored at
index -1. -/
theorem read_line_blank_line_after_cr :
    ∃ r, read_line [Read1.byte NL] (fun i => if i = -1 then CR else 0) 80 = some r ∧
      r.ret = 1 ∧ r.mem 0 = NL ∧ r.mem (-1) = 0 ∧ cstr r.mem 0 80 = [NL] ∧
      cstr r.mem 0 80 ≠ stripCR [] := by
  refine ⟨_, rfl, by decide, by decide, by decide, by decide, by decide⟩

/-- C4: after `socket_set_blocking(fd, 0)` on a descriptor whose flag word is 0,
`socket_query_blocking(fd)` returns 1, and after `socket_set_blocking(fd, 1)`
on a descriptor whose flag word is `O_NONBLOCK` it returns 0. -/
theorem socket_query_blocking_inverted :
    socket_set_blocking true true 0 0 = (0, O_NONBLOCK) ∧
    socket_query_blocking true (socket_set_blocking true true 0 0).2 = 1 ∧
    socket_set_blocking true true O_NONBLOCK 1 = (0, 0) ∧
    socket_query_blocking true (socket_set_blocking true true O_NONBLOCK 1).2 = 0 := by
  decide

/-- C5: `udp_bind` on an interface name that does not resolve returns -1 and
leaves the descriptor it got from `socket` open. -/
theorem udp_bind_leaks_on_resolver_failure :
    udp_bind (some 3) (fun _ => none) true "no.such.host" [0, 1, 2] = (-1, [3, 0, 1, 2]) := by
  decide

/-- C6: for `wait_usec = 2147483648` the timeout that `read_available` hands
to its first `select` call is `tv_sec = -2147`, `tv_usec = -483648`. -/
theorem read_available_timeout_wraps :
    read_available [{ ret := 0, isset := false, errno := 0, left := ⟨0, 0⟩ }] 2147483648 =
      some { ret := 0, timeouts := [{ tv_sec := -2147, tv_usec := -483648 }] } := by
  decide

/-- C8: after `socket_init` and `socket_shutdown`, `get_official_ip` does not
fail its assertion: it returns the address stored by `socket_init`. -/
theorem get_official_ip_after_shutdown :
    ∃ st, runCalls Identity.initial
        [Call.init { nodename := some "box", resolve := fun _ => none }, Call.shutdown] = .ok st ∧
      lastLifecycle
        [Call.init { nodename := some "box", resolve := fun _ => none }, Call.shutdown] =
          some false ∧
      get_official_ip st = .ok "127.0.0.1".toList ∧
      get_official_name st = .error .assertion := by
  refine ⟨_, rfl, rfl, rfl, rfl⟩

/-- C9: for bytes `a`, `b`, `c`, `d`, `gw_netaddr_to_octstr(AF_INET, {a, b, c, d})`
is made of four numerals joined by dots, each a decimal numeral without sign
or leading zero whose value is the corresponding byte; and for a family other
than `AF_INET` and `AF_INET6` the result is `NULL`. -/
theorem gw_netaddr_to_octstr_dotted_quad (a b c d : Nat)
    (ha : a < 256) (hb : b < 256) (hc : c < 256) (hd : d < 256) :
    (∃ ta tb tc td,
      gw_netaddr_to_octstr AF_INET [a, b, c, d] = some (joinDots [ta, tb, tc, td]) ∧
      plainNumeral ta = true ∧ numeralValue ta = a ∧
      plainNumeral tb = true ∧ numeralValue tb = b ∧
      plainNumeral tc = true ∧ numeralValue tc = c ∧
      plainNumeral td = true ∧ numeralValue td = d) ∧
    (∀ af src, af ≠ AF_INET → af ≠ AF_INET6 → gw_netaddr_to_octstr af src = none) := by
  constructor
  · refine ⟨Nat.toDigits 10 a, Nat.toDigits 10 b, Nat.toDigits 10 c, Nat.toDigits 10 d, ?_,
      (toDigits_byte a ha).1, (toDigits_byte a ha).2, (toDigits_byte b hb).1,
      (toDigits_byte b hb).2, (toDigits_byte c hc).1, (toDigits_byte c hc).2,
      (toDigits_byte d hd).1, (toDigits_byte d hd).2⟩
    have hfmt : "%d.%d.%d.%d".toList = ['%', 'd', '.', '%', 'd', '.', '%', 'd', '.', '%', 'd'] :=
      rfl
    simp [gw_netaddr_to_octstr, gw_netaddr_to_octstr4, hfmt, octstr_format, byteAt,
      fmt_d_byte, joinDots]
  · intro af src h4 h6
    simp [gw_netaddr_to_octstr, h4, h6]

/-- C9, witness: the bytes `{10, 0, 0, 1}` give `"10.0.0.1"`. -/
theorem gw_netaddr_to_octstr_dotted_quad_witness :
    gw_netaddr_to_octstr AF_INET [10, 0, 0, 1] = some "10.0.0.1".toList ∧
    ((∃ ta tb tc td,
        gw_netaddr_to_octstr AF_INET [10, 0, 0, 1] = some (joinDots [ta, tb, tc, td]) ∧
        plainNumeral ta = true ∧ numeralValue ta = 10 ∧
        plainNumeral tb = true ∧ numeralValue tb = 0 ∧
        plainNumeral tc = true ∧ numeralValue tc = 0 ∧
        plainNumeral td = true ∧ numeralValue td = 1) ∧
      (∀ af src, af ≠ AF_INET → af ≠ AF_INET6 → gw_netaddr_to_octstr af src = none)) :=
  ⟨by decide,
    gw_netaddr_to_octstr_dotted_quad 10 0 0 1 (by decide) (by decide) (by decide) (by decide)⟩

/-- An octet string without NUL is its own C string. -/
theorem c_str_of_no_nul (H : String) (h : ∀ c ∈ H.toList, c ≠ NUL) : c_str H = H := by
  have hall : H.toList.takeWhile (fun c => c != NUL) = H.toList := by
    rw [List.takeWhile_eq_self_iff]
    intro c hc
    simpa using h c hc
  rw [c_str, hall]
  rfl

/-- The two transient error numbers differ. -/
theorem EINTR_ne_EAGAIN : EINTR ≠ EAGAIN := by decide

/-- The function `strlen` on a string followed by its NUL. -/
theorem strlen_append_nul (str rest : List Nat) (hstr : ∀ b ∈ str, b ≠ 0) :
    strlen (str ++ 0 :: rest) = str.length := by
  induction str with
  | nil => simp [strlen]
  | cons b t ih =>
    have hb : b ≠ 0 := hstr b (List.mem_cons_self b t)
    have ht : ∀ c ∈ t, c ≠ 0 := fun c hc => hstr c (List.mem_cons_of_mem b hc)
    simp [strlen, hb, ih ht]

/-- The number of bytes of one `write` fits an `int`. -/
theorem toInt32_sys_write_count (n count : Nat) :
    toInt32 (sys_write_count n count : Nat) = (sys_write_count n count : Nat) := by
  have h : sys_write_count n count ≤ 2147479552 := by
    simp only [sys_write_count, MAX_RW_COUNT]
    omega
  simp only [toInt32]
  omega

/-- One turn of the loop of `write_to_socket` on a successful `write`: the
bytes taken are recorded, the pointer moves past them, and `len` is what is
left of the string. -/
theorem write_loop_accept (n : Nat) (rest : List WriteOutcome) (str tail : List Nat)
    (errno : Int) (acc : List (List Nat)) (calls : Nat) (h1 : 1 ≤ n) (h2 : n ≤ str.length) :
    write_loop (WriteOutcome.accept n :: rest) (str ++ tail) str.length errno acc calls =
      write_loop rest (str.drop (sys_write_count n str.length) ++ tail)
        (str.drop (sys_write_count n str.length)).length errno
        (acc ++ [str.take (sys_write_count n str.length)]) (calls + 1) := by
  generalize hk : sys_write_count n str.length = k
  have hle : k ≤ str.length := by
    rw [← hk]
    simp only [sys_write_count]
    omega
  have hpos : str.length > 0 := by omega
  have hconv : toInt32 (k : Nat) = (k : Nat) := by
    rw [← hk]
    exact toInt32_sys_write_count n str.length
  have hret : toInt32 (k : Nat) ≠ -1 := by
    rw [hconv]
    omega
  have e1 : ((k : Nat) : Int).toNat = k := by simp
  have e2 : ((str.length : Int) - (k : Nat)).toNat = (str.drop k).length := by
    rw [List.length_drop]
    omega
  have e3 : (str ++ tail).drop k = str.drop k ++ tail := List.drop_append_of_le_length hle
  have e4 : (str ++ tail).take k = str.take k := List.take_append_of_le_length hle
  rw [write_loop]
  simp only [hpos, if_true, hk, hret, if_false]
  rw [hconv, e1, e2, e3, e4]

/-- One turn of the loop of `write_to_socket` on a `write` that fails with
`EINTR` or `EAGAIN`: nothing changes but `errno`. -/
theorem write_loop_transient (e : Int) (rest : List WriteOutcome) (str : List Nat) (len : Nat)
    (errno : Int) (acc : List (List Nat)) (calls : Nat) (hpos : 0 < len)
    (he : e = EINTR ∨ e = EAGAIN) :
    write_loop (WriteOutcome.fail e :: rest) str len errno acc calls =
      write_loop rest str len e acc (calls + 1) := by
  rw [write_loop]
  simp only [gt_iff_lt, hpos, if_true]
  rcases he with he | he
  · subst he
    simp only [EINTR_ne_EAGAIN, if_false, if_true]
  · subst he
    simp only [if_true]

/-- The loop of `write_to_socket` writes what is outstanding when no write
fails for good. -/
theorem write_loop_complete (outs : List WriteOutcome) :
    ∀ (str tail : List Nat) (errno : Int) (acc : List (List Nat)) (calls : Nat),
      writesComplete outs str.length →
      ∃ r, write_loop outs (str ++ tail) str.length errno acc calls = some r ∧ r.ret = 0 ∧
        r.accepted.flatten = acc.flatten ++ str ∧ r.calls = calls + outs.length := by
  induction outs with
  | nil =>
    intro str tail errno acc calls h
    have h0 : str.length = 0 := h
    have hs : str = [] := List.length_eq_zero.mp h0
    subst hs
    exact ⟨{ ret := 0, accepted := acc, calls := calls }, by simp [write_loop], rfl, by simp,
      by simp⟩
  | cons o rest ih =>
    intro str tail errno acc calls h
    cases o with
    | accept n =>
      obtain ⟨h1, h2, h3⟩ := h
      obtain ⟨r, hr, hr0, hracc, hrcalls⟩ := ih (str.drop (sys_write_count n str.length)) tail
        errno (acc ++ [str.take (sys_write_count n str.length)]) (calls + 1)
        (by rw [List.length_drop]; exact h3)
      refine ⟨r, ?_, hr0, ?_, ?_⟩
      · rw [write_loop_accept n rest str tail errno acc calls h1 h2]
        exact hr
      · rw [hracc]
        simp [List.flatten_append]
      · rw [hrcalls]
        simp only [List.length_cons]
        omega
    | fail e =>
      obtain ⟨hpos, he, h3⟩ := h
      obtain ⟨r, hr, hr0, hracc, hrcalls⟩ := ih str tail e acc (calls + 1) h3
      refine ⟨r, ?_, hr0, hracc, ?_⟩
      · rw [write_loop_transient e rest (str ++ tail) str.length errno acc calls hpos he]
        exact hr
      · rw [hrcalls]
        simp only [List.length_cons]
        omega

/-- Bytes are outstanding at the start of a sequence that leaves some. -/
theorem writesPartial_pos (pre : List WriteOutcome) :
    ∀ len, writesPartial pre len → 0 < len := by
  induction pre with
  | nil => exact fun len h => h
  | cons o rest ih =>
    intro len h
    cases o with
    | accept n =>
      obtain ⟨a1, a2, _⟩ := h
      omega
    | fail e => exact ih len h.2

/-- The loop of `write_to_socket` returns -1 at the first write that fails
with an error number other than `EINTR` and `EAGAIN`. -/
theorem write_loop_fatal (e : Int) (post : List WriteOutcome) (he1 : e ≠ EINTR)
    (he2 : e ≠ EAGAIN) (pre : List WriteOutcome) :
    ∀ (str tail : List Nat) (errno : Int) (acc : List (List Nat)) (calls : Nat),
      writesPartial pre str.length →
      ∃ r, write_loop (pre ++ WriteOutcome.fail e :: post) (str ++ tail) str.length errno acc
          calls = some r ∧ r.ret = -1 ∧ r.calls = calls + pre.length + 1 := by
  induction pre with
  | nil =>
    intro str tail errno acc calls h
    have hpos : 0 < str.length := h
    refine ⟨{ ret := -1, accepted := acc, calls := calls + 1 }, ?_, rfl, by simp⟩
    rw [List.nil_append, write_loop]
    simp only [gt_iff_lt, hpos, if_true, he1, he2, if_false]
  | cons o rest ih =>
    intro str tail errno acc calls h
    cases o with
    | accept n =>
      obtain ⟨h1, h2, h3⟩ := h
      obtain ⟨r, hr, hr0, hrcalls⟩ := ih (str.drop (sys_write_count n str.length)) tail errno
        (acc ++ [str.take (sys_write_count n str.length)]) (calls + 1)
        (by rw [List.length_drop]; exact h3)
      refine ⟨r, ?_, hr0, ?_⟩
      · rw [List.cons_append, write_loop_accept n _ str tail errno acc calls h1 h2]
        exact hr
      · rw [hrcalls]
        simp only [List.length_cons]
        omega
    | fail e0 =>
      obtain ⟨he, h3⟩ := h
      have hpos : 0 < str.length := writesPartial_pos rest str.length h3
      obtain ⟨r, hr, hr0, hrcalls⟩ := ih str tail e0 acc (calls + 1) h3
      refine ⟨r, ?_, hr0, ?_⟩
      · rw [List.cons_append,
          write_loop_transient e0 _ (str ++ tail) str.length errno acc calls hpos he]
        exact hr
      · rw [hrcalls]
        simp only [List.length_cons]
        omega

/-- C2: for a string `str` (no NUL byte inside, followed by its NUL), when each
successful `write` takes between 1 and the outstanding number of bytes and
each failure is `EINTR` or `EAGAIN`, `write_to_socket` returns 0, the byte
ranges taken by the successful writes, concatenated in call order, are `str`,
and it issues exactly the writes of the sequence; and when, bytes being still
outstanding, a write fails with another error number, `write_to_socket`
returns -1 at that write and issues no further one. -/
theorem write_to_socket_writes_all (str rest : List Nat) (errno : Int)
    (hstr : ∀ b ∈ str, b ≠ 0) :
    (∀ outs, writesComplete outs str.length →
      ∃ r, write_to_socket outs (str ++ 0 :: rest) errno = some r ∧ r.ret = 0 ∧
        r.accepted.flatten = str ∧ r.calls = outs.length) ∧
    (∀ pre e post, writesPartial pre str.length → e ≠ EINTR → e ≠ EAGAIN →
      ∃ r, write_to_socket (pre ++ WriteOutcome.fail e :: post) (str ++ 0 :: rest) errno =
          some r ∧ r.ret = -1 ∧ r.calls = pre.length + 1) := by
  constructor
  · intro outs h
    obtain ⟨r, hr, hr0, hracc, hrcalls⟩ :=
      write_loop_complete outs str (0 :: rest) errno [] 0 h
    refine ⟨r, ?_, hr0, by simpa using hracc, by simpa using hrcalls⟩
    rw [write_to_socket, strlen_append_nul str rest hstr]
    exact hr
  · intro pre e post h he1 he2
    obtain ⟨r, hr, hr0, hrcalls⟩ :=
      write_loop_fatal e post he1 he2 pre str (0 :: rest) errno [] 0 h
    refine ⟨r, ?_, hr0, by simpa using hrcalls⟩
    rw [write_to_socket, strlen_append_nul str rest hstr]
    exact hr

/-- C2, witness: the string `"HIJ"` written by a write of 2 bytes, an `EINTR`
and a write of 1 byte; and the same string with `EBADF` after the first
write. -/
theorem write_to_socket_writes_all_witness :
    (∀ b ∈ [72, 73, 74], b ≠ 0) ∧
    writesComplete [WriteOutcome.accept 2, WriteOutcome.fail EINTR, WriteOutcome.accept 1] 3 ∧
    writesPartial [WriteOutcome.accept 2] 3 ∧
    (∃ r, write_to_socket [WriteOutcome.accept 2, WriteOutcome.fail EINTR, WriteOutcome.accept 1]
        ([72, 73, 74] ++ 0 :: [9]) 0 = some r ∧ r.ret = 0 ∧
        r.accepted.flatten = [72, 73, 74] ∧ r.calls = 3) ∧
    (∃ r, write_to_socket ([WriteOutcome.accept 2] ++ WriteOutcome.fail EBADF ::
        [WriteOutcome.accept 1]) ([72, 73, 74] ++ 0 :: [9]) 0 = some r ∧ r.ret = -1 ∧
        r.calls = 2) :=
  ⟨by decide,
    by simp [writesComplete, sys_write_count, MAX_RW_COUNT, EINTR, EAGAIN],
    by simp [writesPartial, sys_write_count, MAX_RW_COUNT],
    (write_to_socket_writes_all [72, 73, 74] [9] 0 (by decide)).1 _
      (by simp [writesComplete, sys_write_count, MAX_RW_COUNT, EINTR, EAGAIN]),
    (write_to_socket_writes_all [72, 73, 74] [9] 0 (by decide)).2 _ EBADF _
      (by simp [writesPartial, sys_write_count, MAX_RW_COUNT]) (by decide) (by decide)⟩

/-- The block that `gw_realloc` returns has the requested size and keeps the
old content. -/
theorem gw_realloc_spec (junk : Nat → Nat) (data : List Nat) (size : Nat)
    (h : data.length ≤ size) :
    (gw_realloc junk data size).length = size ∧
      (gw_realloc junk data size).take data.length = data := by
  have hl : (data ++ (List.range' data.length (size - data.length)).map junk).length = size := by
    simp only [List.length_append, List.length_map, List.length_range']
    omega
  have hfull : gw_realloc junk data size =
      data ++ (List.range' data.length (size - data.length)).map junk := by
    rw [gw_realloc]
    exact List.take_of_length_le (Nat.le_of_eq hl)
  rw [hfull]
  exact ⟨hl, by simp⟩

/-- The state of `read_to_eof` after the test `*len == size`: the buffer has
`size` bytes, of which `len` are used, and `size` is the first multiple of
16 KiB above `len`. -/
theorem read_to_eof_grow_spec (junk : Nat → Nat) (data : List Nat) (len size : Nat)
    (hdata : data.length = size)
    (hinv : (len = size ∧ size % 16384 = 0) ∨
      (len < size ∧ size = 16384 * (len / 16384 + 1))) :
    (read_to_eof_grow junk data len size).1.length = (read_to_eof_grow junk data len size).2 ∧
    len < (read_to_eof_grow junk data len size).2 ∧
    (read_to_eof_grow junk data len size).2 = 16384 * (len / 16384 + 1) ∧
    (read_to_eof_grow junk data len size).1.take len = data.take len := by
  rcases hinv with ⟨h1, h2⟩ | ⟨h1, h2⟩
  · have hspec := gw_realloc_spec junk data (size + 16 * 1024) (by omega)
    simp only [read_to_eof_grow, h1, if_true]
    refine ⟨hspec.1, by omega, by omega, ?_⟩
    have h3 : List.take size (gw_realloc junk data (size + 16 * 1024)) = data := by
      have := hspec.2
      rw [hdata] at this
      exact this
    rw [h3, ← hdata, List.take_length]
  · have hne : len ≠ size := by omega
    simp only [read_to_eof_grow, hne, if_false]
    exact ⟨hdata, h1, h2, trivial⟩

/-- The block after `read` stored a chunk that lies inside it. -/
theorem storeAt_spec (data : List Nat) (offset : Nat) (bytes : List Nat)
    (h : offset + bytes.length ≤ data.length) :
    ∃ d, storeAt data offset bytes = some d ∧ d.length = data.length ∧
      d.take (offset + bytes.length) = data.take offset ++ bytes := by
  have h1 : (data.take offset).length = offset := by
    rw [List.length_take]
    omega
  refine ⟨data.take offset ++ bytes ++ data.drop (offset + bytes.length), ?_, ?_, ?_⟩
  · simp only [storeAt, h, if_true]
  · simp only [List.length_append, List.length_take, List.length_drop]
    omega
  · have h2 : (data.take offset ++ bytes).length = offset + bytes.length := by
      rw [List.length_append, h1]
    rw [← h2, List.take_left']
    rfl

/-- The size of a chunk that fits the request is kept by the conversion to
`int`. -/
theorem toInt32_chunk (n : Nat) (h : n ≤ 16384) : toInt32 (n : Int) = (n : Int) := by
  simp only [toInt32]
  omega

/-- The loop of `read_to_eof` collects the chunks up to the end of file. -/
theorem read_to_eof_loop_collects (junk : Nat → Nat) (body : List ReadOutcome) :
    ∀ (data : List Nat) (len size : Nat) (errno : Int) (reqs : List ReadRequest),
      data.length = size →
      ((len = size ∧ size % 16384 = 0) ∨ (len < size ∧ size = 16384 * (len / 16384 + 1))) →
      (∀ q ∈ reqs, q.valid ∧ q.count = 16384 - q.offset % 16384) →
      readsFit body len →
      ∃ r d, read_to_eof_loop junk (body ++ [ReadOutcome.data []]) data len size errno reqs =
          some r ∧ r.ret = 0 ∧ r.len = len + chunkSizes body ∧ r.data = some d ∧
        d.take r.len = data.take len ++ chunksOf body ∧ r.len ≤ d.length ∧
        (∀ q ∈ r.requests, q.valid ∧ q.count = 16384 - q.offset % 16384) ∧
        r.requests.length = reqs.length + body.length + 1 := by
  induction body with
  | nil =>
    intro data len size errno reqs hdata hinv hreqs _
    obtain ⟨g1, g2, g3, g4⟩ := read_to_eof_grow_spec junk data len size hdata hinv
    obtain ⟨gd, gs, hg⟩ : ∃ gd gs, read_to_eof_grow junk data len size = (gd, gs) :=
      ⟨_, _, rfl⟩
    simp only [hg] at g1 g2 g3 g4
    obtain ⟨d0, hst, hst1, hst2⟩ :=
      storeAt_spec gd len [] (by rw [g1]; simpa using Nat.le_of_lt g2)
    refine ⟨{ ret := 0, data := some d0, len := len,
              requests := reqs ++ [ReadRequest.mk len (gs - len) gd.length] }, d0,
      ?_, rfl, by simp [chunkSizes], rfl, ?_, ?_, ?_, ?_⟩
    · rw [List.nil_append, read_to_eof_loop]
      simp only [hg, sys_read, hst, List.length_nil, Nat.cast_zero]
      rfl
    · simp only [List.length_nil, Nat.add_zero, List.append_nil] at hst2
      simp only [chunksOf, List.append_nil, hst2, g4]
    · rw [hst1, g1]
      exact Nat.le_of_lt g2
    · intro q hq
      rcases List.mem_append.mp hq with hq | hq
      · exact hreqs q hq
      · rw [List.mem_singleton] at hq
        subst hq
        exact ⟨⟨by simp only; omega, by simp only; omega⟩, by simp only; omega⟩
    · simp
  | cons o rest ih =>
    intro data len size errno reqs hdata hinv hreqs hfit
    obtain ⟨g1, g2, g3, g4⟩ := read_to_eof_grow_spec junk data len size hdata hinv
    obtain ⟨gd, gs, hg⟩ : ∃ gd gs, read_to_eof_grow junk data len size = (gd, gs) :=
      ⟨_, _, rfl⟩
    simp only [hg] at g1 g2 g3 g4
    have hreqs1 : ∀ q ∈ reqs ++ [ReadRequest.mk len (gs - len) gd.length],
        q.valid ∧ q.count = 16384 - q.offset % 16384 := by
      intro q hq
      rcases List.mem_append.mp hq with hq | hq
      · exact hreqs q hq
      · rw [List.mem_singleton] at hq
        subst hq
        exact ⟨⟨by simp only; omega, by simp only; omega⟩, by simp only; omega⟩
    cases o with
    | data bytes =>
      obtain ⟨h1, h2, h3⟩ := hfit
      have hn : bytes.length ≤ 16384 := by omega
      have hfits : len + bytes.length ≤ gs := by omega
      obtain ⟨d2, hst, hst1, hst2⟩ := storeAt_spec gd len bytes (by rw [g1]; exact hfits)
      have hinv2 : (len + bytes.length = gs ∧ gs % 16384 = 0) ∨
          (len + bytes.length < gs ∧ gs = 16384 * ((len + bytes.length) / 16384 + 1)) := by
        omega
      obtain ⟨r, d, hr, hr0, hrlen, hrdata, hrtake, hrle, hrreq, hrn⟩ :=
        ih d2 (len + bytes.length) gs errno _ (hst1.trans g1) hinv2 hreqs1 h3
      refine ⟨r, d, ?_, hr0, ?_, hrdata, ?_, hrle, hrreq, ?_⟩
      · have hne1 : ((bytes.length : Nat) : Int) ≠ -1 := by omega
        have hne0 : ((bytes.length : Nat) : Int) ≠ 0 := by omega
        have hadd : ((len : Int) + (bytes.length : Nat)).toNat = len + bytes.length := by omega
        rw [List.cons_append, read_to_eof_loop]
        simp only [hg, sys_read, hst, toInt32_chunk bytes.length hn, hne1, hne0, if_false, hadd]
        exact hr
      · rw [hrlen]
        simp only [chunkSizes]
        omega
      · rw [hrtake, hst2, g4]
        simp only [chunksOf, List.append_assoc]
      · rw [hrn]
        simp only [List.length_append, List.length_cons, List.length_nil]
        omega
    | fail e =>
      obtain ⟨he, h3⟩ := hfit
      obtain ⟨r, d, hr, hr0, hrlen, hrdata, hrtake, hrle, hrreq, hrn⟩ :=
        ih gd len gs e _ g1 (Or.inr ⟨g2, g3⟩) hreqs1 h3
      refine ⟨r, d, ?_, hr0, ?_, hrdata, ?_, hrle, hrreq, ?_⟩
      · rw [List.cons_append, read_to_eof_loop]
        rcases he with he | he
        · subst he
          simp only [hg, sys_read, if_true]
          exact hr
        · subst he
          have hne : EAGAIN ≠ EINTR := fun h => EINTR_ne_EAGAIN h.symm
          simp only [hg, sys_read, if_true, hne, if_false]
          exact hr
      · rw [hrlen]
        simp only [chunkSizes]
      · rw [hrtake, g4]
        simp only [chunksOf]
      · rw [hrn]
        simp only [List.length_append, List.length_cons, List.length_nil]
        omega

/-- The sum of the sizes of the chunks is the length of their concatenation. -/
theorem chunkSizes_eq_length (body : List ReadOutcome) :
    chunkSizes body = (chunksOf body).length := by
  induction body with
  | nil => rfl
  | cons o rest ih =>
    cases o with
    | data bytes => simp [chunkSizes, chunksOf, ih]
    | fail e => simp [chunkSizes, chunksOf, ih]

/-- C3: for a sequence of `read` outcomes made of successful reads, each
returning between 1 and the requested number of bytes, and of `EINTR` and
`EAGAIN` failures, ended by a read that returns 0, `read_to_eof` returns 0,
`*len` is the sum of the sizes of the successful reads, the first `*len` bytes
of `*data` are the chunks in order, and every read was requested with a
positive size that fits in the buffer allocated so far (the size requested at
offset `len` being what is left of the current 16 KiB increment, as the
hypothesis takes it). -/
theorem read_to_eof_returns_delivered (junk : Nat → Nat) (body : List ReadOutcome)
    (errno : Int) (h : readsFit body 0) :
    ∃ r d, read_to_eof junk (body ++ [ReadOutcome.data []]) errno = some r ∧ r.ret = 0 ∧
      r.len = chunkSizes body ∧ r.data = some d ∧ d.take r.len = chunksOf body ∧
      r.len ≤ d.length ∧
      (∀ q ∈ r.requests, 0 < q.count ∧ q.offset + q.count ≤ q.allocated ∧
        q.count = 16384 - q.offset % 16384) ∧
      r.requests.length = body.length + 1 := by
  obtain ⟨r, d, hr, hr0, hrlen, hrdata, hrtake, hrle, hrreq, hrn⟩ :=
    read_to_eof_loop_collects junk body [] 0 0 errno [] rfl (Or.inl ⟨rfl, rfl⟩)
      (fun q hq => absurd hq (List.not_mem_nil q)) h
  refine ⟨r, d, hr, hr0, by simpa using hrlen, hrdata, by simpa using hrtake, hrle, ?_,
    by simpa using hrn⟩
  intro q hq
  exact ⟨(hrreq q hq).1.1, (hrreq q hq).1.2, (hrreq q hq).2⟩

/-- C3, witness: the chunks `{1, 2}` and `{3}` with an `EINTR` between them. -/
theorem read_to_eof_returns_delivered_witness :
    readsFit [ReadOutcome.data [1, 2], ReadOutcome.fail EINTR, ReadOutcome.data [3]] 0 ∧
    ∃ r d, read_to_eof (fun _ => 0)
        ([ReadOutcome.data [1, 2], ReadOutcome.fail EINTR, ReadOutcome.data [3]] ++
          [ReadOutcome.data []]) 0 = some r ∧ r.ret = 0 ∧
      r.len = chunkSizes [ReadOutcome.data [1, 2], ReadOutcome.fail EINTR, ReadOutcome.data [3]] ∧
      r.data = some d ∧
      d.take r.len =
        chunksOf [ReadOutcome.data [1, 2], ReadOutcome.fail EINTR, ReadOutcome.data [3]] ∧
      r.len ≤ d.length ∧
      (∀ q ∈ r.requests, 0 < q.count ∧ q.offset + q.count ≤ q.allocated ∧
        q.count = 16384 - q.offset % 16384) ∧
      r.requests.length =
        [ReadOutcome.data [1, 2], ReadOutcome.fail EINTR, ReadOutcome.data [3]].length + 1 :=
  ⟨by simp [readsFit],
    read_to_eof_returns_delivered (fun _ => 0) _ 0 (by simp [readsFit])⟩

/-- Support for C3 and its witness of the specification: 40 000 bytes, in any
chunking that the requests allow and with any transient failures, give the
length 40 000 and the same bytes. -/
theorem read_to_eof_forty_thousand (junk : Nat → Nat) (body : List ReadOutcome) (errno : Int)
    (content : List Nat) (h : readsFit body 0) (hc : chunksOf body = content)
    (hl : content.length = 40000) :
    ∃ r d, read_to_eof junk (body ++ [ReadOutcome.data []]) errno = some r ∧ r.ret = 0 ∧
      r.len = 40000 ∧ r.data = some d ∧ d.take 40000 = content := by
  obtain ⟨r, d, hr, hr0, hrlen, hrdata, hrtake, -, -, -⟩ :=
    read_to_eof_loop_collects junk body [] 0 0 errno [] rfl (Or.inl ⟨rfl, rfl⟩)
      (fun q hq => absurd hq (List.not_mem_nil q)) h
  have hlen : r.len = 40000 := by
    rw [hrlen, chunkSizes_eq_length, hc, hl]
  refine ⟨r, d, hr, hr0, hlen, hrdata, ?_⟩
  rw [← hlen, hrtake, hc]
  rfl

/-- The loop of `read_line` on a stream that delivers the rest of a line and
its `'\n'`, with transient failures in between: it leaves the loop after the
`'\n'`, the buffer holding the line, and touches no byte before the buffer. -/
theorem read_line_loop_delivers (outs : List Read1) :
    ∀ (st : LineState) (pre suf : List Nat), transientOnly outs →
      delivered outs = suf ++ [NL] → (∀ b ∈ suf, b ≠ NL) →
      st.line = (pre.length : Int) → (suf.length : Int) < st.max →
      (∀ i : Nat, i < pre.length → st.mem (i : Int) = pre.getD i 0) →
      ∃ st1, read_line_loop outs st = some (LoopExit.left st1) ∧
        st1.line = ((pre ++ suf).length : Int) + 1 ∧
        (∀ i : Nat, i < (pre ++ suf ++ [NL]).length →
          st1.mem (i : Int) = (pre ++ suf ++ [NL]).getD i 0) ∧
        (∀ j : Int, j < 0 → st1.mem j = st.mem j) := by
  induction outs with
  | nil =>
    intro st pre suf _ hd
    simp [delivered] at hd
  | cons o rest ih =>
    intro st pre suf ht hd hnl hline hmax hmem
    have hpos : st.max > 0 := by omega
    cases o with
    | eof => exact absurd ht (by simp [transientOnly])
    | fail e =>
      obtain ⟨he, ht2⟩ := ht
      obtain ⟨st1, h1, h2, h3, h4⟩ := ih st pre suf ht2 hd hnl hline hmax hmem
      refine ⟨st1, ?_, h2, h3, h4⟩
      rw [read_line_loop]
      rcases he with he | he
      · subst he
        simp only [hpos, if_true, EINTR_ne_EAGAIN, if_false]
        exact h1
      · subst he
        simp only [hpos, if_true]
        exact h1
    | byte b =>
      have hstore : ∀ i : Nat, i < (pre ++ [b]).length →
          storeByte st.mem st.line b (i : Int) = (pre ++ [b]).getD i 0 := by
        intro i hi
        simp only [List.length_append, List.length_singleton] at hi
        by_cases hip : i = pre.length
        · subst hip
          simp [storeByte, hline, List.getD_eq_getElem?_getD]
        · have hlt : i < pre.length := by omega
          have hne : (i : Int) ≠ st.line := by omega
          simp only [storeByte, hne, if_false, hmem i hlt]
          simp [List.getD_eq_getElem?_getD, List.getElem?_append_left hlt]
      have hneg : ∀ j : Int, j < 0 → storeByte st.mem st.line b j = st.mem j := by
        intro j hj
        have hne : j ≠ st.line := by omega
        simp only [storeByte, hne, if_false]
      have hlast : storeByte st.mem st.line b (st.line + 1 - 1) = b := by
        simp [storeByte]
      cases suf with
      | nil =>
        have hb : b = NL := by
          simp [delivered] at hd
          exact hd.1
        subst hb
        refine ⟨{ mem := storeByte st.mem st.line NL, line := st.line + 1, max := st.max - 1,
                  trace := st.trace ++ [.store st.line, .load st.line] }, ?_, ?_, ?_, ?_⟩
        · rw [read_line_loop]
          simp only [hpos, if_true, hlast]
        · simp [hline]
        · intro i hi
          rw [List.append_nil] at hi ⊢
          exact hstore i hi
        · exact hneg
      | cons c suf2 =>
        have hbc : b = c ∧ delivered rest = suf2 ++ [NL] := by
          simpa [delivered] using hd
        obtain ⟨hb, hd2⟩ := hbc
        subst hb
        have hbn : b ≠ NL := hnl b (List.mem_cons_self b suf2)
        obtain ⟨st1, h1, h2, h3, h4⟩ := ih
          { mem := storeByte st.mem st.line b, line := st.line + 1, max := st.max - 1,
            trace := st.trace ++ [.store st.line, .load st.line] }
          (pre ++ [b]) suf2 ht hd2 (fun x hx => hnl x (List.mem_cons_of_mem b hx))
          (by simp [hline]) (by simp only [List.length_cons] at hmax; simp only; omega) hstore
        refine ⟨st1, ?_, ?_, ?_, ?_⟩
        · rw [read_line_loop]
          simp only [hpos, if_true, hlast, hbn, if_false]
          exact h1
        · rw [h2]
          simp
        · simpa using h3
        · intro j hj
          rw [h4 j hj]
          exact hneg j hj

/-- The text without its trailing `'\r'`, for a text given by its last byte. -/
theorem stripCR_concat (t : List Nat) (c : Nat) :
    stripCR (t ++ [c]) = if c = CR then t else t ++ [c] := by
  simp [stripCR]

/-- Support for C1: when the line `s` is not empty, or the byte before the
buffer is not `'\r'`, `read_line` returns 1 and the buffer holds `s` without
its trailing `'\r'`, followed by a NUL, whatever `EINTR` and `EAGAIN` failures
are interleaved. -/
theorem read_line_delivers_line (outs : List Read1) (mem : Int → Nat) (max : Int)
    (s : List Nat) (hs : ∀ b ∈ s, b ≠ NL) (hlen : (s.length : Int) < max)
    (ht : transientOnly outs) (hd : delivered outs = s ++ [NL])
    (hne : s ≠ [] ∨ mem (-1) ≠ CR) :
    ∃ r, read_line outs mem max = some r ∧ r.ret = 1 ∧
      (∀ i : Nat, i < (stripCR s).length → r.mem (i : Int) = (stripCR s).getD i 0) ∧
      r.mem ((stripCR s).length : Int) = 0 := by
  obtain ⟨st1, h1, h2, h3, h4⟩ := read_line_loop_delivers outs
    { mem := mem, line := 0, max := max, trace := [] } [] s ht hd hs rfl hlen
    (fun i hi => absurd hi (Nat.not_lt_zero i))
  simp only [List.nil_append] at h2 h3
  have hline0 : st1.line ≠ 0 := by omega
  have hnl : st1.mem (st1.line - 1) = NL := by
    have := h3 s.length (by simp)
    rw [h2]
    simpa [List.getD_eq_getElem?_getD] using this
  have hsub : st1.line - 1 = (s.length : Int) := by omega
  have hr : read_line outs mem max = some
      { ret := 1
        mem := storeByte st1.mem
          (if st1.mem ((s.length : Int) - 1) = CR then (s.length : Int) - 1 else s.length) 0
        trace := st1.trace ++ [.load (s.length : Int), .load ((s.length : Int) - 1),
          .store (if st1.mem ((s.length : Int) - 1) = CR then (s.length : Int) - 1
            else s.length)] } := by
    have hnl2 : st1.mem (s.length : Int) = NL := by
      rw [← hsub]
      exact hnl
    rw [read_line, h1]
    simp only [hline0, if_false, hsub, hnl2, if_true]
  refine ⟨_, hr, rfl, ?_, ?_⟩
  · intro i hi
    rcases List.eq_nil_or_concat s with hnil | ⟨t, c, hc⟩
    · subst hnil
      simp [stripCR] at hi
    · rw [List.concat_eq_append] at hc
      subst hc
      rw [stripCR_concat] at hi ⊢
      have hlast : st1.mem ((t ++ [c]).length - 1 : Int) = c := by
        have := h3 t.length (by simp)
        rw [List.append_assoc, List.getD_append_right _ _ _ _ (Nat.le_refl _)] at this
        simpa using this
      simp only [hlast]
      by_cases hcr : c = CR
      · simp only [hcr, if_true] at hi ⊢
        have hne2 : (i : Int) ≠ ((t ++ [CR]).length : Int) - 1 := by
          simp only [List.length_append, List.length_singleton]
          omega
        simp only [storeByte, hne2, if_false]
        rw [h3 i (by simp; omega), List.append_assoc, List.getD_append _ _ _ _ hi]
      · simp only [hcr, if_false] at hi ⊢
        have hne2 : (i : Int) ≠ ((t ++ [c]).length : Int) := by omega
        simp only [storeByte, hne2, if_false]
        rw [h3 i (by simp at hi ⊢; omega), List.getD_append _ _ _ _ hi]
  · rcases List.eq_nil_or_concat s with hnil | ⟨t, c, hc⟩
    · subst hnil
      have hcr : st1.mem (-1) ≠ CR := by
        rw [h4 (-1) (by decide)]
        rcases hne with h | h
        · exact absurd rfl h
        · exact h
      simp [stripCR, storeByte, hcr]
    · rw [List.concat_eq_append] at hc
      subst hc
      rw [stripCR_concat]
      have hlast : st1.mem ((t ++ [c]).length - 1 : Int) = c := by
        have := h3 t.length (by simp)
        rw [List.append_assoc, List.getD_append_right _ _ _ _ (Nat.le_refl _)] at this
        simpa using this
      simp only [hlast]
      by_cases hcr : c = CR
      · simp [hcr, storeByte]
      · simp [hcr, storeByte]

/-- Support for C1 and its witness of the specification: the stream
`"HELLO\r\n"`, interrupted twice, gives the return value 1 and the buffer
`"HELLO"`. -/
theorem read_line_hello :
    ∃ r, read_line [Read1.byte 72, Read1.fail EINTR, Read1.byte 69, Read1.byte 76,
        Read1.byte 76, Read1.fail EAGAIN, Read1.byte 79, Read1.byte 13, Read1.byte 10]
        (fun _ => 255) 80 = some r ∧ r.ret = 1 ∧ cstr r.mem 0 80 = [72, 69, 76, 76, 79] := by
  refine ⟨_, rfl, by decide, by decide⟩

/-- The bit pattern of a non-negative `int`. -/
theorem bits32_natCast (n : Nat) (h : n < 4294967296) : bits32 (n : Int) = n := by
  simp only [bits32]
  omega

/-- A natural number below `2 ^ 31` is an `int`. -/
theorem toInt32_natCast (n : Nat) (h : n < 2147483648) : toInt32 (n : Int) = n := by
  simp only [toInt32]
  omega

/-- Setting a bit and testing it. -/
theorem lor_land_self (x m : Nat) : (x ||| m) &&& m = m := by
  apply Nat.eq_of_testBit_eq
  intro i
  simp only [Nat.testBit_and, Nat.testBit_or]
  cases x.testBit i <;> cases m.testBit i <;> rfl

/-- Support for C4: for every flag word, when the `fcntl` calls succeed,
`socket_query_blocking` returns 1 after `socket_set_blocking(fd, 0)` and 0
after `socket_set_blocking(fd, blocking)` with `blocking` non-zero: it returns
1 exactly when `O_NONBLOCK` is set. -/
theorem socket_query_after_set (flags : Int) (h0 : 0 ≤ flags) (h1 : flags < 2147483648) :
    socket_query_blocking true (socket_set_blocking true true flags 0).2 = 1 ∧
    ∀ b : Int, b ≠ 0 →
      socket_query_blocking true (socket_set_blocking true true flags b).2 = 0 := by
  obtain ⟨f, rfl⟩ := Int.eq_ofNat_of_zero_le h0
  have hf : f < 2147483648 := by omega
  have hbits : bits32 (f : Int) = f := bits32_natCast f (by omega)
  have hO : bits32 O_NONBLOCK = 2048 := by decide
  have hN : bits32 (int_not O_NONBLOCK) = 4294965247 := by decide
  have hor_lt : f ||| 2048 < 2147483648 :=
    Nat.or_lt_two_pow (n := 31) (by simpa using hf) (by decide)
  have hand_le : f &&& 4294965247 ≤ f := Nat.and_le_left
  have e1 : int_or (f : Int) O_NONBLOCK = ((f ||| 2048 : Nat) : Int) := by
    rw [int_or, hbits, hO, toInt32_natCast _ hor_lt]
  have e2 : int_and ((f ||| 2048 : Nat) : Int) O_NONBLOCK = 2048 := by
    rw [int_and, bits32_natCast _ (by omega), hO, lor_land_self]
    decide
  have e3 : int_and (f : Int) (int_not O_NONBLOCK) = ((f &&& 4294965247 : Nat) : Int) := by
    rw [int_and, hbits, hN, toInt32_natCast _ (by omega)]
  have e4 : int_and ((f &&& 4294965247 : Nat) : Int) O_NONBLOCK = 0 := by
    rw [int_and, bits32_natCast _ (by omega), hO, Nat.and_assoc]
    have : (4294965247 : Nat) &&& 2048 = 0 := by decide
    rw [this, Nat.and_zero]
    decide
  have hnn : ¬ ((f : Int) < 0) := by omega
  constructor
  · simp only [socket_set_blocking, fcntl_getfl, if_true, hnn, if_false, ne_eq,
      not_true_eq_false, e1]
    by_cases hsame : ((f ||| 2048 : Nat) : Int) = (f : Int)
    · simp only [hsame, not_true_eq_false, if_false, socket_query_blocking, fcntl_getfl,
        if_true, hnn]
      rw [← hsame, e2]
      decide
    · have hnn2 : ¬ (((f ||| 2048 : Nat) : Int) < 0) := by omega
      simp only [hsame, not_false_eq_true, if_true, socket_query_blocking, fcntl_getfl, hnn2,
        if_false, e2]
      decide
  · intro b hb
    simp only [socket_set_blocking, fcntl_getfl, if_true, hnn, if_false, ne_eq, hb,
      not_false_eq_true, e3]
    by_cases hsame : ((f &&& 4294965247 : Nat) : Int) = (f : Int)
    · simp only [hsame, not_true_eq_false, if_false, socket_query_blocking, fcntl_getfl,
        if_true, hnn]
      rw [← hsame, e4]
      decide
    · have hnn2 : ¬ (((f &&& 4294965247 : Nat) : Int) < 0) := by omega
      simp only [hsame, not_false_eq_true, if_true, socket_query_blocking, fcntl_getfl, hnn2,
        if_false, e4]
      decide

/-- Closing the descriptor that `socket` just opened restores the open
descriptors. -/
theorem sys_close_sys_socket (fd : Nat) (opened : List Int) :
    sys_close (fd : Int) ((fd : Int) :: opened) = opened := by
  simp [sys_close]

/-- Support for C5: `make_server_socket` that returns -1 leaves the open
descriptors as they were. -/
theorem make_server_socket_no_leak (sock : Option Nat) (setsockopt_ok bind_ok listen_ok : Bool)
    (opened : List Int)
    (h : (make_server_socket sock setsockopt_ok bind_ok listen_ok opened).1 = -1) :
    (make_server_socket sock setsockopt_ok bind_ok listen_ok opened).2 = opened := by
  cases sock with
  | none => simp [make_server_socket, sys_socket, make_server_socket_error]
  | some fd =>
    have h1 : (fd : Int) ≠ -1 := by omega
    have h2 : (fd : Int) ≥ 0 := by omega
    cases setsockopt_ok <;> cases bind_ok <;> cases listen_ok <;>
      simp [make_server_socket, sys_socket, make_server_socket_error, h1, h2,
        sys_close_sys_socket] at h ⊢

/-- Support for C5: `tcpip_connect_to_server_with_port` that returns -1 leaves
the open descriptors as they were. -/
theorem tcpip_connect_no_leak (sock : Option Nat) (resolve : Resolver)
    (setsockopt_ok bind_ok connect_ok : Bool) (hostname : String) (our_port : Int)
    (opened : List Int)
    (h : (tcpip_connect_to_server_with_port sock resolve setsockopt_ok bind_ok connect_ok
      hostname our_port opened).1 = -1) :
    (tcpip_connect_to_server_with_port sock resolve setsockopt_ok bind_ok connect_ok
      hostname our_port opened).2 = opened := by
  cases sock with
  | none => simp [tcpip_connect_to_server_with_port, sys_socket, tcpip_connect_error]
  | some fd =>
    have h1 : (fd : Int) ≠ -1 := by omega
    have h2 : (fd : Int) ≥ 0 := by omega
    simp only [tcpip_connect_to_server_with_port, sys_socket, h1, if_false] at h ⊢
    cases hres : resolve hostname with
    | none => simp [tcpip_connect_error, h2, sys_close_sys_socket]
    | some hostinfo =>
      simp only [hres] at h ⊢
      split_ifs at h ⊢ <;> simp [tcpip_connect_error, h2, sys_close_sys_socket]

/-- Support for C5: `udp_client_socket` that returns -1 has opened nothing. -/
theorem udp_client_socket_no_leak (sock : Option Nat) (opened : List Int)
    (h : (udp_client_socket sock opened).1 = -1) :
    (udp_client_socket sock opened).2 = opened := by
  cases sock with
  | none => simp [udp_client_socket, sys_socket]
  | some fd =>
    have h1 : (fd : Int) ≠ -1 := by omega
    simp [udp_client_socket, sys_socket, h1] at h

/-- Support for C5: `udp_bind` that returns -1 leaves the open descriptors as
they were when the interface is `"*"` or its name resolves. -/
theorem udp_bind_no_leak_when_resolved (sock : Option Nat) (resolve : Resolver)
    (bind_ok : Bool) (interface_name : String) (opened : List Int)
    (hres : interface_name = "*" ∨ resolve interface_name ≠ none)
    (h : (udp_bind sock resolve bind_ok interface_name opened).1 = -1) :
    (udp_bind sock resolve bind_ok interface_name opened).2 = opened := by
  cases sock with
  | none => simp [udp_bind, sys_socket]
  | some fd =>
    have h1 : (fd : Int) ≠ -1 := by omega
    simp only [udp_bind, sys_socket, h1, if_false] at h ⊢
    by_cases hstar : interface_name = "*"
    · simp only [hstar, if_true] at h ⊢
      cases bind_ok
      · simp [sys_close_sys_socket]
      · simp at h
    · simp only [hstar, if_false] at h ⊢
      cases hr : resolve interface_name with
      | none =>
        rcases hres with hres | hres
        · exact absurd hres hstar
        · exact absurd hr hres
      | some hostinfo =>
        simp only [hr] at h ⊢
        cases bind_ok
        · simp [sys_close_sys_socket]
        · simp at h

/-- Support for C6: for `0 <= wait_usec < 2^31` the value is split exactly into
seconds and microseconds. -/
theorem c_div_exact (wait_usec : Int) (h0 : 0 ≤ wait_usec) (h1 : wait_usec < 2147483648) :
    (c_div wait_usec 1000000).1 * 1000000 + (c_div wait_usec 1000000).2 = wait_usec ∧
    0 ≤ (c_div wait_usec 1000000).2 ∧ (c_div wait_usec 1000000).2 < 1000000 := by
  have hw : toInt32 wait_usec = wait_usec := by
    simp only [toInt32]
    omega
  have hd : toInt32 1000000 = 1000000 := by decide
  simp only [c_div, hw, hd, Int.tdiv_eq_ediv h0 (by decide : (0 : Int) ≤ 1000000),
    Int.tmod_eq_emod h0 (by decide : (0 : Int) ≤ 1000000)]
  omega

/-- The variable `official_name` after a sequence of calls that does not stop
the process is set exactly when the most recent lifecycle call is
`socket_init`; without a lifecycle call it is as before. -/
theorem official_name_after (calls : List Call) :
    ∀ st0 st, runCalls st0 calls = .ok st →
      st.official_name.isSome =
        (match lastLifecycle calls with
          | some b => b
          | none => st0.official_name.isSome) := by
  induction calls with
  | nil =>
    intro st0 st h
    simp only [runCalls, Except.ok.injEq] at h
    subst h
    rfl
  | cons c rest ih =>
    intro st0 st h
    simp only [runCalls] at h
    cases hstep : c.step st0 with
    | error f => simp [hstep] at h
    | ok st1 =>
      simp only [hstep] at h
      rw [ih st1 st h]
      cases hl : lastLifecycle rest with
      | some b => simp [lastLifecycle, hl]
      | none =>
        cases c with
        | init env =>
          simp only [lastLifecycle, hl]
          simp only [Call.step, socket_init, setup_official_name] at hstep
          split_ifs at hstep
          cases hn : env.nodename with
          | none => simp [hn] at hstep
          | some nodename =>
            simp only [hn] at hstep
            cases hr : env.resolve nodename with
            | none =>
              simp only [hr, Except.ok.injEq] at hstep
              subst hstep
              rfl
            | some hostinfo =>
              simp only [hr, Except.ok.injEq] at hstep
              subst hstep
              rfl
        | shutdown =>
          simp only [lastLifecycle, hl]
          simp only [Call.step, socket_shutdown, Except.ok.injEq] at hstep
          subst hstep
          rfl
        | name =>
          simp only [lastLifecycle, hl]
          simp only [Call.step, get_official_name] at hstep
          cases hn : st0.official_name with
          | none => simp [hn, Except.map] at hstep
          | some v =>
            simp only [hn, Except.map, Except.ok.injEq] at hstep
            subst hstep
            rw [hn]
        | ip =>
          simp only [lastLifecycle, hl]
          simp only [Call.step, get_official_ip] at hstep
          cases hn : st0.official_ip with
          | none => simp [hn, Except.map] at hstep
          | some v =>
            simp only [hn, Except.map, Except.ok.injEq] at hstep
            subst hstep
            rfl

/-- The variable `official_ip` after a sequence of calls that does not stop the
process is set exactly when it was set before or `socket_init` is among the
calls. -/
theorem official_ip_after (calls : List Call) :
    ∀ st0 st, runCalls st0 calls = .ok st →
      st.official_ip.isSome = (st0.official_ip.isSome || calls.any Call.isInit) := by
  induction calls with
  | nil =>
    intro st0 st h
    simp only [runCalls, Except.ok.injEq] at h
    subst h
    simp
  | cons c rest ih =>
    intro st0 st h
    simp only [runCalls] at h
    cases hstep : c.step st0 with
    | error f => simp [hstep] at h
    | ok st1 =>
      simp only [hstep] at h
      rw [ih st1 st h]
      cases c with
      | init env =>
        simp only [Call.step, socket_init, setup_official_name] at hstep
        split_ifs at hstep
        cases hn : env.nodename with
        | none => simp [hn] at hstep
        | some nodename =>
          simp only [hn] at hstep
          cases hr : env.resolve nodename with
          | none =>
            simp only [hr, Except.ok.injEq] at hstep
            subst hstep
            simp [Call.isInit]
          | some hostinfo =>
            simp only [hr, Except.ok.injEq] at hstep
            subst hstep
            simp [Call.isInit]
      | shutdown =>
        simp only [Call.step, socket_shutdown, Except.ok.injEq] at hstep
        subst hstep
        simp [Call.isInit]
      | name =>
        simp only [Call.step, get_official_name] at hstep
        cases hn : st0.official_name with
        | none => simp [hn, Except.map] at hstep
        | some v =>
          simp only [hn, Except.map, Except.ok.injEq] at hstep
          subst hstep
          simp [Call.isInit]
      | ip =>
        simp only [Call.step, get_official_ip] at hstep
        cases hn : st0.official_ip with
        | none => simp [hn, Except.map] at hstep
        | some v =>
          simp only [hn, Except.map, Except.ok.injEq] at hstep
          subst hstep
          simp [Call.isInit, hn]

/-- Support for C8: after a sequence of calls from the initial state that does
not stop the process, `get_official_name` succeeds exactly when the most
recent lifecycle call is `socket_init`, and `get_official_ip` succeeds exactly
when `socket_init` has run, be it followed by `socket_shutdown` or not. -/
theorem identity_readable (calls : List Call) (st : Identity)
    (h : runCalls Identity.initial calls = .ok st) :
    ((∃ v, get_official_name st = .ok v) ↔ lastLifecycle calls = some true) ∧
    ((∃ v, get_official_ip st = .ok v) ↔ calls.any Call.isInit = true) := by
  have hn := official_name_after calls Identity.initial st h
  have hi := official_ip_after calls Identity.initial st h
  constructor
  · cases hname : st.official_name with
    | none =>
      rw [hname] at hn
      cases hl : lastLifecycle calls with
      | none => simp [get_official_name, hname]
      | some b =>
        rw [hl] at hn
        simp only [Option.isSome_none] at hn
        subst hn
        simp [get_official_name, hname]
    | some v =>
      rw [hname] at hn
      cases hl : lastLifecycle calls with
      | none =>
        rw [hl] at hn
        simp [Identity.initial] at hn
      | some b =>
        rw [hl] at hn
        simp only [Option.isSome_some] at hn
        subst hn
        simp [get_official_name, hname]
  · cases hip : st.official_ip with
    | none =>
      rw [hip] at hi
      simp only [Identity.initial, Option.isSome_none, Bool.false_or] at hi
      simp [get_official_ip, hip, ← hi]
    | some v =>
      rw [hip] at hi
      simp only [Identity.initial, Option.isSome_some, Option.isSome_none, Bool.false_or] at hi
      simp [get_official_ip, hip, ← hi]

end Kannel
